import Mathlib

/-!
Verification of the terminal column-layout engine of `rusl` (src/layout.rs).

The engine is a pure function family:
* `col_widths_by_cols`  — per-column widths when items fill down columns first;
* `col_widths_by_lines` — per-column widths when items fill across rows first;
* `determine_layout`    — the search over candidate column counts.

`usize` values are modelled as `Nat` (the program only adds, divides and
compares widths, so no overflow wrapping is involved), slices as `List Nat`,
and the `Vec` accumulation loops as `List.filterMap` / `List.foldl` over the
same ranges the Rust loops traverse.  Rust iterator adaptors from `std` are
embedded by their documented semantics (`chunks_exact`, `step_by`).
-/

/-- `MIN_COL_SIZE` from the source (`const MIN_COL_SIZE: usize = 3;`). -/
def MIN_COL_SIZE : Nat := 3

/-- `LayoutInfo { num_cols, col_width }` from src/layout.rs. -/
structure LayoutInfo where
  num_cols : Nat
  col_width : List Nat
deriving Repr, DecidableEq

/-- `impl Default for LayoutInfo`: `{ num_cols: 1, col_width: vec![0] }`. -/
def LayoutInfo.default : LayoutInfo := ⟨1, [0]⟩

/-- Rust `slice::chunks_exact(k)` (for `k > 0`): the `⌊n/k⌋` consecutive
chunks of exactly `k` elements; a final remainder shorter than `k` is
dropped.  (`k = 0` panics in Rust; the checked layer below models that.) -/
def chunksExact (k : Nat) (xs : List Nat) : List (List Nat) :=
  (List.range (xs.length / k)).map (fun i => (xs.drop (i * k)).take k)

/-- The fold `col.iter().fold(min_width, |acc, l| max(acc, *l))` used by both
width computations: the max of the items, floored at `min_width`. -/
def colWidth (min_width : Nat) (col : List Nat) : Nat :=
  col.foldl (fun acc l => max acc l) min_width

/-- `col_widths_by_cols` from src/layout.rs: split `lens` into the first
`rem` columns of `num_rows + 1` consecutive items (`lens[..end]` chunked by
`num_rows + 1`) followed by columns of `num_rows` consecutive items
(`lens[end..]` chunked by `num_rows`), and fold each chunk to its width. -/
def col_widths_by_cols (min_width num_cols : Nat) (lens : List Nat) : List Nat :=
  let num_rows := lens.length / num_cols
  let rem := lens.length % num_cols
  let e := rem * (num_rows + 1)
  let start_col_widths := (chunksExact (num_rows + 1) (lens.take e)).map (colWidth min_width)
  let fin_col_widths := (chunksExact num_rows (lens.drop e)).map (colWidth min_width)
  start_col_widths ++ fin_col_widths

/-- Rust `Iterator::step_by(k)` (for `k > 0`) applied to a list: the elements
at positions `0, k, 2k, …`; there are `⌈n/k⌉ = (n + k - 1) / k` of them. -/
def stepBy (k : Nat) (xs : List Nat) : List Nat :=
  (List.range ((xs.length + k - 1) / k)).map (fun i => xs.getD (i * k) 0)

/-- `col_widths_by_lines` from src/layout.rs: for each `offset` in
`0..num_cols`, fold `lens[offset..].iter().step_by(num_cols)` to a width. -/
def col_widths_by_lines (min_width num_cols : Nat) (lens : List Nat) : List Nat :=
  (List.range num_cols).map (fun offset =>
    colWidth min_width (stepBy num_cols (lens.drop offset)))

/-- The `if by_lines { … } else { … }` dispatch inside `determine_layout`'s
loop body. -/
def layout_widths (by_lines : Bool) (num_cols : Nat) (lens : List Nat) : List Nat :=
  if by_lines then col_widths_by_lines MIN_COL_SIZE num_cols lens
  else col_widths_by_cols MIN_COL_SIZE num_cols lens

/-- `max_cols = std::cmp::min(term_cols / MIN_COL_SIZE, lens.len())`. -/
def max_cols (term_cols : Nat) (lens : List Nat) : Nat :=
  min (term_cols / MIN_COL_SIZE) lens.length

/-- The `valid_layouts` vector built by `determine_layout`'s
`for num_cols in 1..=max_cols` loop: a candidate is pushed exactly when its
total width fits in the terminal, in increasing `num_cols` order. -/
def valid_layouts (by_lines : Bool) (term_cols : Nat) (lens : List Nat) : List LayoutInfo :=
  (List.range' 1 (max_cols term_cols lens)).filterMap (fun num_cols =>
    if (layout_widths by_lines num_cols lens).sum ≤ term_cols
    then some (LayoutInfo.mk num_cols (layout_widths by_lines num_cols lens))
    else none)

/-- `determine_layout` from src/layout.rs:
`valid_layouts.pop().unwrap_or_default()` — the last recorded candidate, or
the default layout when none fits. -/
def determine_layout (by_lines : Bool) (term_cols : Nat) (lens : List Nat) : LayoutInfo :=
  (valid_layouts by_lines term_cols lens).getLast?.getD LayoutInfo.default

/-- Checked variant of `col_widths_by_cols`, modelling the Rust panics:
`num_cols = 0` makes `lens.len() / num_cols` a division by zero, and
`num_rows = lens.len() / num_cols = 0` makes `chunks_exact(num_rows)` a
zero-size chunking, both of which panic; `none` marks these faults. -/
def col_widths_by_cols_checked (min_width num_cols : Nat) (lens : List Nat) :
    Option (List Nat) :=
  if num_cols = 0 ∨ lens.length / num_cols = 0 then none
  else some (col_widths_by_cols min_width num_cols lens)

/-- Checked variant of `col_widths_by_lines`, modelling the Rust panics:
`step_by(0)` has zero step, and the slice `lens[offset..]` is out of range
when some `offset ≤ num_cols - 1` exceeds `lens.len()`; `none` marks these
faults. -/
def col_widths_by_lines_checked (min_width num_cols : Nat) (lens : List Nat) :
    Option (List Nat) :=
  if num_cols = 0 ∨ lens.length + 1 < num_cols then none
  else some (col_widths_by_lines min_width num_cols lens)

/-- Checked variant of the `if by_lines` dispatch. -/
def layout_widths_checked (by_lines : Bool) (num_cols : Nat) (lens : List Nat) :
    Option (List Nat) :=
  if by_lines then col_widths_by_lines_checked MIN_COL_SIZE num_cols lens
  else col_widths_by_cols_checked MIN_COL_SIZE num_cols lens

/-- Checked variant of the candidate loop of `determine_layout`: the fold
propagates a fault (`none`) raised by any width computation it performs. -/
def valid_layouts_checked (by_lines : Bool) (term_cols : Nat) (lens : List Nat) :
    Option (List LayoutInfo) :=
  (List.range' 1 (max_cols term_cols lens)).foldl
    (fun acc num_cols =>
      acc.bind (fun layouts =>
        (layout_widths_checked by_lines num_cols lens).map (fun col_width =>
          if col_width.sum ≤ term_cols then layouts ++ [LayoutInfo.mk num_cols col_width]
          else layouts)))
    (some [])

/-- Checked variant of `determine_layout`: `some` result iff no internal
call panics. -/
def determine_layout_checked (by_lines : Bool) (term_cols : Nat) (lens : List Nat) :
    Option LayoutInfo :=
  (valid_layouts_checked by_lines term_cols lens).map
    (fun v => v.getLast?.getD LayoutInfo.default)

/-- The spec's own description of the down-columns width computation (§4.1):
with `num_rows = n / c` and `rem = n % c`, column `j < rem` takes the
`num_rows + 1` consecutive items starting at `j * (num_rows + 1)`, column
`j ≥ rem` takes the `num_rows` consecutive items starting where the first
`rem` columns end, and each column's width is the max of its items floored
at `min_width`. -/
def col_widths_by_cols_spec (min_width num_cols : Nat) (lens : List Nat) : List Nat :=
  let num_rows := lens.length / num_cols
  let rem := lens.length % num_cols
  (List.range num_cols).map (fun j =>
    if j < rem then colWidth min_width ((lens.drop (j * (num_rows + 1))).take (num_rows + 1))
    else colWidth min_width
      ((lens.drop (rem * (num_rows + 1) + (j - rem) * num_rows)).take num_rows))

/-- The spec's own description of the across-rows width computation (§4.2):
the width at column offset `o` is the max of `lens[o], lens[o+c], lens[o+2c], …`
floored at `min_width`; there are `⌈(n - o) / c⌉` such indices. -/
def col_widths_by_lines_spec (min_width num_cols : Nat) (lens : List Nat) : List Nat :=
  (List.range num_cols).map (fun o =>
    colWidth min_width
      ((List.range ((lens.length - o + (num_cols - 1)) / num_cols)).map
        (fun i => lens.getD (o + i * num_cols) 0)))

/-- The candidate search of `determine_layout`, abstractly: scanning
`c = 1, …, m` in order and keeping the last `g c` with `p c`, either no `c`
satisfies `p` and the default is returned, or the result is `g c` for the
largest satisfying `c`. -/
theorem search_last_cases {α : Type} (d : α) (p : Nat → Prop) [DecidablePred p]
    (g : Nat → α) (m : Nat) :
    (((List.range' 1 m).filterMap (fun c => if p c then some (g c) else none)).getLast?.getD d = d
      ∧ ∀ c, 1 ≤ c → c ≤ m → ¬ p c)
    ∨ (∃ c, 1 ≤ c ∧ c ≤ m ∧ p c ∧
        ((List.range' 1 m).filterMap
          (fun c => if p c then some (g c) else none)).getLast?.getD d = g c
        ∧ ∀ c', c < c' → c' ≤ m → ¬ p c') := by
  induction m with
  | zero =>
    left
    refine ⟨rfl, ?_⟩
    intro c h1 h2
    omega
  | succ m ih =>
    have hm : 1 + 1 * m = m + 1 := by omega
    rw [List.range'_concat, hm, List.filterMap_append]
    by_cases hp : p (m + 1)
    · right
      refine ⟨m + 1, by omega, Nat.le_refl _, hp, ?_, ?_⟩
      · have hsing : List.filterMap (fun c => if p c then some (g c) else none) [m + 1]
            = [g (m + 1)] := by simp [hp]
        rw [hsing, List.getLast?_concat]
        rfl
      · intro c' h1 h2
        omega
    · have hsing : List.filterMap (fun c => if p c then some (g c) else none) [m + 1]
          = [] := by simp [hp]
      rw [hsing, List.append_nil]
      rcases ih with ⟨hres, hall⟩ | ⟨c, hc1, hc2, hpc, hres, hmax⟩
      · left
        refine ⟨hres, ?_⟩
        intro c h1 h2
        rcases Nat.lt_or_ge c (m + 1) with h | h
        · exact hall c h1 (by omega)
        · have hceq : c = m + 1 := by omega
          rw [hceq]
          exact hp
      · right
        refine ⟨c, hc1, by omega, hpc, hres, ?_⟩
        intro c' h1 h2
        rcases Nat.lt_or_ge c' (m + 1) with h | h
        · exact hmax c' h1 (by omega)
        · have hceq : c' = m + 1 := by omega
          rw [hceq]
          exact hp

/-- Case analysis for `determine_layout`: either nothing fits and the default
comes back, or the result is the layout for the largest fitting column count
in `1..=max_cols`. -/
theorem determine_layout_cases (b : Bool) (t : Nat) (l : List Nat) :
    (determine_layout b t l = LayoutInfo.default
      ∧ ∀ c, 1 ≤ c → c ≤ max_cols t l → ¬ (layout_widths b c l).sum ≤ t)
    ∨ (∃ c, 1 ≤ c ∧ c ≤ max_cols t l ∧ (layout_widths b c l).sum ≤ t
        ∧ determine_layout b t l = LayoutInfo.mk c (layout_widths b c l)
        ∧ ∀ c', c < c' → c' ≤ max_cols t l → ¬ (layout_widths b c' l).sum ≤ t) := by
  have h := search_last_cases LayoutInfo.default
      (fun c => (layout_widths b c l).sum ≤ t)
      (fun c => LayoutInfo.mk c (layout_widths b c l)) (max_cols t l)
  simpa [determine_layout, valid_layouts] using h

/-- The folded width is at least the starting floor. -/
theorem le_colWidth (m : Nat) (col : List Nat) : m ≤ colWidth m col := by
  induction col generalizing m with
  | nil => exact Nat.le_refl m
  | cons x xs ih =>
    calc m ≤ max m x := Nat.le_max_left m x
    _ ≤ colWidth (max m x) xs := ih (max m x)
    _ = colWidth m (x :: xs) := rfl

/-- Every width either variant produces is at least the floor passed in. -/
theorem mem_layout_widths_le (b : Bool) (c : Nat) (l : List Nat) :
    ∀ w ∈ layout_widths b c l, MIN_COL_SIZE ≤ w := by
  intro w hw
  cases b with
  | true =>
    simp only [layout_widths, if_pos, col_widths_by_lines, List.mem_map] at hw
    obtain ⟨o, _, rfl⟩ := hw
    exact le_colWidth _ _
  | false =>
    simp only [layout_widths, if_neg, col_widths_by_cols, List.mem_append, List.mem_map,
      Bool.false_eq_true, ite_false] at hw
    rcases hw with ⟨ch, _, rfl⟩ | ⟨ch, _, rfl⟩ <;> exact le_colWidth _ _

/-- C1. Fit invariant: on a non-empty width sequence, whenever
`determine_layout` returns a descriptor other than the default fallback
(i.e., one recorded during the search), the sum of its `col_width` entries
is at most `term_cols`. -/
theorem determine_layout_fit_invariant (by_lines : Bool) (term_cols : Nat) (lens : List Nat)
    (hne : lens ≠ []) (hd : determine_layout by_lines term_cols lens ≠ LayoutInfo.default) :
    (determine_layout by_lines term_cols lens).col_width.sum ≤ term_cols := by
  rcases determine_layout_cases by_lines term_cols lens with ⟨hdef, _⟩ | ⟨c, _, _, hfit, hres, _⟩
  · exact absurd hdef hd
  · rw [hres]
    exact hfit

theorem determine_layout_fit_invariant_witness :
    (determine_layout false 10 [5, 5, 4, 4]).col_width.sum ≤ 10 :=
  determine_layout_fit_invariant false 10 [5, 5, 4, 4] (by decide) (by decide)

/-- C2 counterexample: the claim predicts that on widths `[100]` and terminal
width 10 (where no candidate in `1..=max_cols` fits, as the first conjunct
verifies) the result is `{columns: 1, widths: [3]}` with the minimum column
width; the code's default is `{num_cols: 1, col_width: vec![0]}`, so the
result differs. -/
theorem determine_layout_fallback_counterexample :
    (∀ c, 1 ≤ c → c ≤ max_cols 10 [100] → ¬ (layout_widths false c [100]).sum ≤ 10)
    ∧ determine_layout false 10 [100] ≠ LayoutInfo.mk 1 [MIN_COL_SIZE] := by
  constructor
  · decide
  · decide

/-- C2 (amended). Fallback descriptor: whenever no candidate column count in
`1..=max_cols` produces widths summing to at most the terminal width, the
search records nothing and `determine_layout` returns the default descriptor
`{num_cols: 1, col_width: [0]}` (width 0, not the minimum column width). -/
theorem determine_layout_fallback_default (by_lines : Bool) (term_cols : Nat) (lens : List Nat)
    (h : ∀ c, 1 ≤ c → c ≤ max_cols term_cols lens →
      ¬ (layout_widths by_lines c lens).sum ≤ term_cols) :
    determine_layout by_lines term_cols lens = LayoutInfo.mk 1 [0] := by
  rcases determine_layout_cases by_lines term_cols lens with ⟨hdef, _⟩ | ⟨c, h1, h2, hfit, _, _⟩
  · exact hdef
  · exact absurd hfit (h c h1 h2)

theorem determine_layout_fallback_default_witness :
    determine_layout false 10 [100] = LayoutInfo.mk 1 [0] :=
  determine_layout_fallback_default false 10 [100] (by decide)

/-- C3 counterexample: on widths `[100]` with terminal width 10 the engine
returns the default descriptor with `col_width = [0]`, whose entry is below
`MIN_COL_SIZE = 3`, so the minimum-width invariant fails for the default
fallback. -/
theorem determine_layout_min_width_counterexample :
    ¬ ∀ w ∈ (determine_layout false 10 [100]).col_width, MIN_COL_SIZE ≤ w := by
  decide

/-- C3 (amended). Minimum-width invariant for non-default results: on a
non-empty width sequence, whenever `determine_layout` returns a descriptor
other than the default fallback, every entry of its `col_width` vector is at
least `MIN_COL_SIZE = 3`.  (The default fallback itself has `col_width = [0]`
and is exempt.) -/
theorem determine_layout_min_width_invariant (by_lines : Bool) (term_cols : Nat)
    (lens : List Nat) (hne : lens ≠ [])
    (hd : determine_layout by_lines term_cols lens ≠ LayoutInfo.default) :
    ∀ w ∈ (determine_layout by_lines term_cols lens).col_width, MIN_COL_SIZE ≤ w := by
  rcases determine_layout_cases by_lines term_cols lens with ⟨hdef, _⟩ | ⟨c, _, _, _, hres, _⟩
  · exact absurd hdef hd
  · rw [hres]
    exact mem_layout_widths_le by_lines c lens

theorem determine_layout_min_width_invariant_witness : MIN_COL_SIZE ≤ 5 :=
  determine_layout_min_width_invariant false 10 [5, 5, 4, 4] (by decide) (by decide)
    5 (by decide)

/-- C4. Maximality of the search over `c = 1, …, max_cols` with
`max_cols = min(term_cols / MIN_COL_SIZE, lens.length)`: no column count
strictly between the returned one and `max_cols` fits; when some candidate
fits, the returned descriptor is the one computed for the largest fitting
column count; and when `term_cols < MIN_COL_SIZE`, `max_cols = 0`, no layout
is tried and the default is returned. -/
theorem determine_layout_maximality (by_lines : Bool) (term_cols : Nat) (lens : List Nat)
    (hne : lens ≠ []) :
    (∀ c', (determine_layout by_lines term_cols lens).num_cols < c' →
        c' ≤ max_cols term_cols lens → ¬ (layout_widths by_lines c' lens).sum ≤ term_cols)
    ∧ ((∃ c, 1 ≤ c ∧ c ≤ max_cols term_cols lens
          ∧ (layout_widths by_lines c lens).sum ≤ term_cols) →
        ∃ c, 1 ≤ c ∧ c ≤ max_cols term_cols lens
          ∧ (layout_widths by_lines c lens).sum ≤ term_cols
          ∧ determine_layout by_lines term_cols lens
              = LayoutInfo.mk c (layout_widths by_lines c lens)
          ∧ ∀ c', c < c' → c' ≤ max_cols term_cols lens →
              ¬ (layout_widths by_lines c' lens).sum ≤ term_cols)
    ∧ (term_cols < MIN_COL_SIZE →
        max_cols term_cols lens = 0
          ∧ determine_layout by_lines term_cols lens = LayoutInfo.default) := by
  refine ⟨?_, ?_, ?_⟩
  · intro c' hgt hle
    rcases determine_layout_cases by_lines term_cols lens with ⟨hdef, hall⟩ |
      ⟨c, _, _, _, hres, hmax⟩
    · refine hall c' ?_ hle
      rw [hdef] at hgt
      exact Nat.one_le_iff_ne_zero.mpr (by omega)
    · refine hmax c' ?_ hle
      rw [hres] at hgt
      exact hgt
  · intro ⟨c, h1, h2, hfit⟩
    rcases determine_layout_cases by_lines term_cols lens with ⟨_, hall⟩ |
      ⟨c₀, h1₀, h2₀, hfit₀, hres₀, hmax₀⟩
    · exact absurd hfit (hall c h1 h2)
    · exact ⟨c₀, h1₀, h2₀, hfit₀, hres₀, hmax₀⟩
  · intro hsmall
    have hzero : max_cols term_cols lens = 0 := by
      have : term_cols / MIN_COL_SIZE = 0 := Nat.div_eq_of_lt hsmall
      simp [max_cols, this]
    refine ⟨hzero, ?_⟩
    rcases determine_layout_cases by_lines term_cols lens with ⟨hdef, _⟩ |
      ⟨c, h1, h2, _, _, _⟩
    · exact hdef
    · rw [hzero] at h2
      omega

theorem determine_layout_maximality_witness :
    max_cols 2 [5] = 0 ∧ determine_layout false 2 [5] = LayoutInfo.default :=
  (determine_layout_maximality false 2 [5] (by decide)).2.2 (by decide)

/-- C7. Concrete scenarios and fill-order sensitivity: for widths
`[3,3,7,7,3]` and terminal width 13, the down-columns order yields
`{num_cols: 3, col_width: [3,7,3]}`, the across-rows order yields
`{num_cols: 1, col_width: [7]}`, so the two fill orders disagree on this
input. -/
theorem determine_layout_concrete_scenarios :
    determine_layout false 13 [3, 3, 7, 7, 3] = LayoutInfo.mk 3 [3, 7, 3]
    ∧ determine_layout true 13 [3, 3, 7, 7, 3] = LayoutInfo.mk 1 [7]
    ∧ determine_layout false 13 [3, 3, 7, 7, 3] ≠ determine_layout true 13 [3, 3, 7, 7, 3] := by
  refine ⟨by decide, by decide, by decide⟩

/-- C9. Determinism: two calls to `determine_layout` with identical
fill-order flag, terminal width and width sequence return equal
descriptors. -/
theorem determine_layout_deterministic (b₁ b₂ : Bool) (t₁ t₂ : Nat) (l₁ l₂ : List Nat)
    (hb : b₁ = b₂) (ht : t₁ = t₂) (hl : l₁ = l₂) :
    determine_layout b₁ t₁ l₁ = determine_layout b₂ t₂ l₂ := by
  rw [hb, ht, hl]

theorem determine_layout_deterministic_witness :
    determine_layout false 10 [5, 5, 4, 4] = determine_layout false 10 [5, 5, 4, 4] :=
  determine_layout_deterministic false false 10 10 [5, 5, 4, 4] [5, 5, 4, 4] rfl rfl rfl

/-- On the precondition `1 ≤ c ≤ lens.length` neither width computation
faults, and the checked variant agrees with the plain one. -/
theorem layout_widths_checked_eq (b : Bool) (c : Nat) (l : List Nat)
    (h1 : 1 ≤ c) (h2 : c ≤ l.length) :
    layout_widths_checked b c l = some (layout_widths b c l) := by
  cases b with
  | true =>
    have hcond : ¬ (c = 0 ∨ l.length + 1 < c) := by omega
    simp [layout_widths_checked, layout_widths, col_widths_by_lines_checked, hcond]
  | false =>
    have hdiv : 1 ≤ l.length / c := (Nat.one_le_div_iff (by omega)).mpr h2
    have hcond : ¬ (c = 0 ∨ l.length / c = 0) := by omega
    simp [layout_widths_checked, layout_widths, col_widths_by_cols_checked, hcond]

/-- The checked candidate fold returns `some` of the plain fold as long as
every column count it visits satisfies the precondition. -/
theorem foldl_checked_some (b : Bool) (t : Nat) (l : List Nat) (L : List Nat)
    (h : ∀ c ∈ L, layout_widths_checked b c l = some (layout_widths b c l)) :
    ∀ init : List LayoutInfo,
      L.foldl (fun acc num_cols => acc.bind (fun layouts =>
        (layout_widths_checked b num_cols l).map (fun col_width =>
          if col_width.sum ≤ t then layouts ++ [LayoutInfo.mk num_cols col_width]
          else layouts))) (some init)
      = some (L.foldl (fun layouts num_cols =>
          if (layout_widths b num_cols l).sum ≤ t
          then layouts ++ [LayoutInfo.mk num_cols (layout_widths b num_cols l)]
          else layouts) init) := by
  induction L with
  | nil =>
    intro init
    rfl
  | cons x xs ih =>
    intro init
    have hx := h x (List.mem_cons_self x xs)
    rw [List.foldl_cons, List.foldl_cons, Option.some_bind, hx, Option.map_some']
    exact ih (fun c hc => h c (List.mem_cons_of_mem x hc)) _

/-- The plain candidate fold is the `filterMap` form used by
`valid_layouts`. -/
theorem foldl_append_eq_filterMap (b : Bool) (t : Nat) (l : List Nat) (L : List Nat) :
    ∀ init : List LayoutInfo,
      L.foldl (fun layouts num_cols =>
        if (layout_widths b num_cols l).sum ≤ t
        then layouts ++ [LayoutInfo.mk num_cols (layout_widths b num_cols l)]
        else layouts) init
      = init ++ L.filterMap (fun num_cols =>
          if (layout_widths b num_cols l).sum ≤ t
          then some (LayoutInfo.mk num_cols (layout_widths b num_cols l))
          else none) := by
  induction L with
  | nil =>
    intro init
    simp
  | cons x xs ih =>
    intro init
    by_cases hp : (layout_widths b x l).sum ≤ t
    · simp [hp, ih, List.filterMap_cons]
    · simp [hp, ih, List.filterMap_cons]

/-- C8. Safety of the internal precondition: on a non-empty width sequence,
every column count the search loop passes to a width computation satisfies
`1 ≤ c ≤ lens.length` (the loop is capped at `max_cols ≤ lens.length`), so
the division/slicing faults modelled by the checked variants are
unreachable: the checked engine returns `some` of the plain result and never
panics. -/
theorem determine_layout_no_panic (by_lines : Bool) (term_cols : Nat) (lens : List Nat)
    (hne : lens ≠ []) :
    determine_layout_checked by_lines term_cols lens
      = some (determine_layout by_lines term_cols lens) := by
  have hmem : ∀ c ∈ List.range' 1 (max_cols term_cols lens),
      layout_widths_checked by_lines c lens = some (layout_widths by_lines c lens) := by
    intro c hc
    rw [List.mem_range'_1] at hc
    have hmax : max_cols term_cols lens ≤ lens.length := Nat.min_le_right _ _
    exact layout_widths_checked_eq by_lines c lens hc.1 (by omega)
  have h1 := foldl_checked_some by_lines term_cols lens
      (List.range' 1 (max_cols term_cols lens)) hmem []
  have h2 := foldl_append_eq_filterMap by_lines term_cols lens
      (List.range' 1 (max_cols term_cols lens)) []
  unfold determine_layout_checked valid_layouts_checked determine_layout valid_layouts
  rw [h1, h2, List.nil_append, Option.map_some']

theorem determine_layout_no_panic_witness :
    determine_layout_checked false 10 [5, 5, 4, 4]
      = some (determine_layout false 10 [5, 5, 4, 4]) :=
  determine_layout_no_panic false 10 [5, 5, 4, 4] (by decide)

/-- C10. Empty input: for the empty width sequence, either fill order and
any terminal width, `max_cols` is 0, the search loop runs zero iterations,
and the engine returns the default descriptor `{num_cols: 1, col_width: [0]}`;
the checked engine returns it as `some`, i.e. without panicking. -/
theorem determine_layout_empty_input (by_lines : Bool) (term_cols : Nat) :
    max_cols term_cols [] = 0
    ∧ determine_layout by_lines term_cols [] = LayoutInfo.mk 1 [0]
    ∧ determine_layout_checked by_lines term_cols [] = some (LayoutInfo.mk 1 [0]) := by
  have h0 : max_cols term_cols [] = 0 := by simp [max_cols]
  refine ⟨h0, ?_, ?_⟩
  · simp [determine_layout, valid_layouts, h0, LayoutInfo.default]
  · simp [determine_layout_checked, valid_layouts_checked, h0, LayoutInfo.default]

/-- `chunks_exact k` on an exact prefix `lens[..q*k]`: the `q` chunks are the
consecutive `k`-item windows of `lens`. -/
theorem chunksExact_take_prefix (q k : Nat) (lens : List Nat) (hk : 0 < k)
    (hle : q * k ≤ lens.length) :
    chunksExact k (lens.take (q * k))
      = (List.range q).map (fun i => (lens.drop (i * k)).take k) := by
  unfold chunksExact
  have hlen : (lens.take (q * k)).length = q * k := by
    rw [List.length_take]
    omega
  rw [hlen, Nat.mul_div_cancel q hk]
  apply List.map_congr_left
  intro i hi
  rw [List.mem_range] at hi
  have h3 : (i + 1) * k ≤ q * k := Nat.mul_le_mul_right k (by omega)
  rw [Nat.succ_mul] at h3
  rw [List.drop_take, List.take_take]
  have hmin : k ⊓ (q * k - i * k) = k := by omega
  rw [hmin]

/-- `chunks_exact k` on a suffix `lens[e'..]` of length exactly `q*k`: the
`q` chunks are the consecutive `k`-item windows of `lens` starting at `e'`. -/
theorem chunksExact_drop_suffix (q k e' : Nat) (lens : List Nat) (hk : 0 < k)
    (hlen : lens.length - e' = q * k) :
    chunksExact k (lens.drop e')
      = (List.range q).map (fun i => (lens.drop (e' + i * k)).take k) := by
  unfold chunksExact
  rw [List.length_drop, hlen, Nat.mul_div_cancel q hk]
  apply List.map_congr_left
  intro i hi
  rw [List.drop_drop]

/-- Splitting a map over `range c` at the pivot `rem` of an
index-conditional function. -/
theorem range_map_ite_split {α : Type} (rem c : Nat) (hrc : rem ≤ c) (A B : Nat → α) :
    (List.range c).map (fun j => if j < rem then A j else B j)
      = (List.range rem).map A ++ (List.range (c - rem)).map (fun i => B (rem + i)) := by
  have hc : rem + (c - rem) = c := by omega
  conv_lhs => rw [← hc]
  rw [List.range_add, List.map_append, List.map_map]
  congr 1
  · apply List.map_congr_left
    intro j hj
    rw [List.mem_range] at hj
    exact if_pos (by omega)
  · apply List.map_congr_left
    intro i hi
    simp only [Function.comp_apply]
    exact if_neg (by omega)

/-- C5. Down-columns width computation: for `1 ≤ c ≤ lens.length`,
`col_widths_by_cols` returns exactly `c` widths and agrees with the spec's
description: with `num_rows = n / c` and `rem = n % c`, the first `rem`
columns take `num_rows + 1` consecutive items each, the remaining `c - rem`
columns take `num_rows` consecutive items each, and each width is the max of
the column's items floored at `min_width` (when `rem = 0` every column takes
exactly `num_rows` items). -/
theorem col_widths_by_cols_correct (m c : Nat) (lens : List Nat)
    (h1 : 1 ≤ c) (h2 : c ≤ lens.length) :
    col_widths_by_cols m c lens = col_widths_by_cols_spec m c lens
    ∧ (col_widths_by_cols m c lens).length = c := by
  have hc0 : 0 < c := h1
  have hr1 : 1 ≤ lens.length / c := (Nat.one_le_div_iff hc0).mpr h2
  have hmod : c * (lens.length / c) + lens.length % c = lens.length := Nat.div_add_mod _ _
  have hremlt : lens.length % c < c := Nat.mod_lt _ hc0
  have hmulrem : lens.length % c * (lens.length / c + 1)
      = lens.length % c * (lens.length / c) + lens.length % c := by ring
  have hmul2 : lens.length % c * (lens.length / c) ≤ c * (lens.length / c) :=
    Nat.mul_le_mul_right _ (Nat.le_of_lt hremlt)
  have he_le : lens.length % c * (lens.length / c + 1) ≤ lens.length := by omega
  have hsub : (c - lens.length % c) * (lens.length / c)
      = c * (lens.length / c) - lens.length % c * (lens.length / c) := Nat.sub_mul _ _ _
  have hsuffix : lens.length - lens.length % c * (lens.length / c + 1)
      = (c - lens.length % c) * (lens.length / c) := by omega
  have hmain : col_widths_by_cols m c lens = col_widths_by_cols_spec m c lens := by
    have hdef : col_widths_by_cols m c lens
        = (chunksExact (lens.length / c + 1)
            (lens.take (lens.length % c * (lens.length / c + 1)))).map (colWidth m)
          ++ (chunksExact (lens.length / c)
            (lens.drop (lens.length % c * (lens.length / c + 1)))).map (colWidth m) := rfl
    have hspec : col_widths_by_cols_spec m c lens
        = (List.range c).map (fun j =>
            if j < lens.length % c then
              colWidth m ((lens.drop (j * (lens.length / c + 1))).take (lens.length / c + 1))
            else
              colWidth m ((lens.drop (lens.length % c * (lens.length / c + 1)
                + (j - lens.length % c) * (lens.length / c))).take (lens.length / c))) := rfl
    rw [hdef,
      chunksExact_take_prefix (lens.length % c) (lens.length / c + 1) lens (by omega) he_le,
      chunksExact_drop_suffix (c - lens.length % c) (lens.length / c)
        (lens.length % c * (lens.length / c + 1)) lens (by omega) hsuffix,
      hspec, range_map_ite_split (lens.length % c) c (Nat.le_of_lt hremlt)]
    rw [List.map_map, List.map_map]
    congr 1
    apply List.map_congr_left
    intro i hi
    simp only [Function.comp_apply, Nat.add_sub_cancel_left]
  refine ⟨hmain, ?_⟩
  rw [hmain]
  simp [col_widths_by_cols_spec]

theorem col_widths_by_cols_correct_witness :
    col_widths_by_cols 3 3 [3, 3, 7, 7, 3] = col_widths_by_cols_spec 3 3 [3, 3, 7, 7, 3]
    ∧ (col_widths_by_cols 3 3 [3, 3, 7, 7, 3]).length = 3 :=
  col_widths_by_cols_correct 3 3 [3, 3, 7, 7, 3] (by decide) (by decide)

/-- C6. Across-rows width computation: for `1 ≤ c ≤ lens.length`,
`col_widths_by_lines` returns exactly `c` widths, and the width at column
offset `o` is the max of `lens[o], lens[o+c], lens[o+2c], …` floored at
`min_width`, as described by the spec. -/
theorem col_widths_by_lines_correct (m c : Nat) (lens : List Nat)
    (h1 : 1 ≤ c) (h2 : c ≤ lens.length) :
    col_widths_by_lines m c lens = col_widths_by_lines_spec m c lens
    ∧ (col_widths_by_lines m c lens).length = c := by
  have hmain : col_widths_by_lines m c lens = col_widths_by_lines_spec m c lens := by
    unfold col_widths_by_lines col_widths_by_lines_spec
    apply List.map_congr_left
    intro o ho
    congr 1
    unfold stepBy
    rw [List.length_drop]
    have hcount : lens.length - o + c - 1 = lens.length - o + (c - 1) := by omega
    rw [hcount]
    apply List.map_congr_left
    intro i hi
    rw [List.getD_eq_getElem?_getD, List.getD_eq_getElem?_getD, List.getElem?_drop]
  refine ⟨hmain, ?_⟩
  rw [hmain]
  simp [col_widths_by_lines_spec]

theorem col_widths_by_lines_correct_witness :
    col_widths_by_lines 3 3 [3, 3, 7, 7, 3] = col_widths_by_lines_spec 3 3 [3, 3, 7, 7, 3]
    ∧ (col_widths_by_lines 3 3 [3, 3, 7, 7, 3]).length = 3 :=
  col_widths_by_lines_correct 3 3 [3, 3, 7, 7, 3] (by decide) (by decide)
